import Mathlib

/-!
# Verification of the greedy seed decoder and discriminative clustering loss

This file is a shallow embedding, in Lean 4, of the algorithmic core of the
`lartpc_mlreco3d` clustering code:

* the pairwise geometry kernels `gaussian_kernel` and `ellipsoidal_kernel`
  (`inference/spatial_embeddings.py`),
* the centroid estimator `find_cluster_means`,
* the greedy seed decoders `fit_predict1` and `fit_predict2`,
* the discriminative loss pieces `intra_cluster_loss`, `inter_cluster_loss`,
  `regularization` and `combine` (`mlreco/models/cluster/loss.py`),
* the F-score expression of the evaluation harness (`main_loop`).

Numpy/torch arrays are modelled as Lean lists.  Matrices are lists of rows.
The decoder is modelled polymorphically over a linear ordered field, because
the Python code is duck-typed in the kernel function and in the scalar type;
instantiating with `ℚ` gives decidable evaluation, instantiating with `ℝ`
gives the actual Gaussian-kernel runs.  Functions of the source that raise
Python `NameError`s are modelled in the `Except String` monad.
-/

/-! ## Generic list helpers (models of numpy primitives) -/

/-- Model of `np.argsort(l)[::-1][0]`: the index of the *last* occurrence of
the maximum of `l` (numpy's argsort is a stable ascending sort, so reversing
puts the last occurrence of the maximum first).  Returns `0` on `[]`. -/
def argmaxLast [LinearOrder α] : List α → ℕ
  | [] => 0
  | [_] => 0
  | x :: y :: ys =>
    let j := argmaxLast (y :: ys)
    if (y :: ys).getD j y < x then 0 else j + 1

/-- Model of `np.argmax(l)`: the index of the *first* occurrence of the
maximum of `l`.  Returns `0` on `[]`. -/
def argmaxFirst [LinearOrder α] : List α → ℕ
  | [] => 0
  | [_] => 0
  | x :: y :: ys =>
    let j := argmaxFirst (y :: ys)
    if x < (y :: ys).getD j y then j + 1 else 0

/-- Model of `np.argmin(l)`: the index of the first occurrence of the
minimum of `l`. -/
def argminFirst [LinearOrder α] : List α → ℕ
  | [] => 0
  | [_] => 0
  | x :: y :: ys =>
    let j := argminFirst (y :: ys)
    if (y :: ys).getD j y < x then j + 1 else 0

/-- Model of `sum(l > t)` for a numpy vector `l`: how many entries exceed `t`. -/
def countAbove [LinearOrder α] (t : α) : List α → ℕ
  | [] => 0
  | x :: xs => (if t < x then 1 else 0) + countAbove t xs

/-- Number of entries equal to zero (used for loop invariants about the
peeled seediness copy). -/
def countZero [Zero α] [DecidableEq α] : List α → ℕ
  | [] => 0
  | x :: xs => (if x = 0 then 1 else 0) + countZero xs

/-- Model of `seediness_copy[cluster_index] = 0`: zero every entry of `copy`
whose corresponding `pValue` exceeds the threshold `t`. -/
def zeroAbove [LinearOrder α] [Zero α] (t : α) (copy pValues : List α) : List α :=
  List.zipWith (fun c p => if t < p then 0 else c) copy pValues

/-- Squared euclidean distance between two vectors,
`np.sum(np.power(x - c, 2))`. -/
def sqDist [Ring α] (x c : List α) : α :=
  ((List.zipWith (fun a b => a - b) x c).map (fun d => d ^ 2)).sum

/-- Componentwise sum of a list of vectors (rows of equal length). -/
def vecSum [Add α] : List (List α) → List α
  | [] => []
  | [v] => v
  | v :: vs => List.zipWith (fun a b => a + b) v (vecSum vs)

/-- Model of `rows.mean(0)`: componentwise arithmetic mean of a list of rows. -/
def vecMean [DivisionRing α] (rows : List (List α)) : List α :=
  (vecSum rows).map (fun x => x / (rows.length : α))

/-- Model of `sorted(np.unique(labels))` / `labels.unique(sorted=True)`:
the distinct values of `labels`, sorted ascending. -/
def sortedUnique (labels : List ℤ) : List ℤ :=
  (labels.dedup).insertionSort (fun a b => a ≤ b)

/-- The feature rows whose label equals `c`
(model of the boolean mask `features[labels == c]`). -/
def memberRows [Ring α] (features : List (List α)) (labels : List ℤ) (c : ℤ) :
    List (List α) :=
  ((labels.zip features).filter (fun p => decide (p.1 = c))).map (fun p => p.2)

/-! ## Pairwise geometry kernels (`inference/spatial_embeddings.py:69-82`) -/

/-- `gaussian_kernel(centroid, sigma)` applied to one point `x`:
`np.exp(-dists / (2.0 * sigma**2))` with `dists` the squared distance. -/
noncomputable def gaussian_kernel (centroid : List ℝ) (sigma : ℝ) (x : List ℝ) : ℝ :=
  Real.exp (-(sqDist x centroid) / (2 * sigma ^ 2))

/-- `ellipsoidal_kernel(centroid, sigma)` applied to one point, exactly as the
source computes it: `dists = (x-c)**2 / (2*sigma**2)` per axis, then
`probs = np.exp(-np.sum(-dists))` — note the doubled minus sign of the source. -/
noncomputable def ellipsoidal_kernel (centroid sigma x : List ℝ) : ℝ :=
  let dists :=
    List.zipWith (fun d s => d / (2 * s ^ 2))
      ((List.zipWith (fun a b => a - b) x centroid).map (fun d => d ^ 2)) sigma
  Real.exp (-(dists.map (fun d => -d)).sum)

/-- The ellipsoidal kernel as the *specification* states it
(`p(x) = exp(-Σ_k (x_k-c_k)² / (2·σ_k²))`); written from the spec's words to
compare against `ellipsoidal_kernel`, which is written from the source. -/
noncomputable def ellipsoidal_kernel_spec (centroid sigma x : List ℝ) : ℝ :=
  let dists :=
    List.zipWith (fun d s => d / (2 * s ^ 2))
      ((List.zipWith (fun a b => a - b) x centroid).map (fun d => d ^ 2)) sigma
  Real.exp (-dists.sum)

/-! ## Centroid estimator (`inference/spatial_embeddings.py:85-109`) -/

/-- `find_cluster_means(features, labels)`: sorted distinct labels together
with, for each such label, the mean of the feature rows carrying it. -/
def find_cluster_means [DivisionRing α] (features : List (List α))
    (labels : List ℤ) : List ℤ × List (List α) :=
  let group_ids := sortedUnique labels
  (group_ids, group_ids.map (fun c => vecMean (memberRows features labels c)))

/-! ## F-score of the evaluation harness (`inference/spatial_embeddings.py:225`) -/

/-- `fscore = 2 * (purity * efficiency) / (purity + efficiency)` from
`main_loop`.  The source performs the division unguarded; a zero denominator
produces NaN / a division error in Python, modelled here as `none`. -/
def fscore (purity efficiency : ℚ) : Option ℚ :=
  if purity + efficiency = 0 then none
  else some (2 * (purity * efficiency) / (purity + efficiency))

/-! ## Greedy seed decoder, argmax policy
(`fit_predict2`, `inference/spatial_embeddings.py:148-175`)

The decoder is a while-loop mutating `seediness_copy`, `probs`, `spheres`
and `count`; we model it as a step function on an explicit state, iterated
with fuel.  `none` marks fuel exhaustion, which on sufficient fuel only
happens when the Python loop diverges. -/

/-- The inputs of one `fit_predict2` call. -/
structure DecodeCfg (α : Type) where
  embeddings : List (List α)
  seediness : List α
  margins : List α
  fitfunc : List α → α → List α → α
  s_threshold : α
  p_threshold : α

/-- The mutable state of the discovery loop of `fit_predict2`. -/
structure DecodeState (α : Type) where
  copy : List α
  probs : List (List α)
  spheres : List (List α × α)
  count : ℕ
  deriving DecidableEq

/-- Result of one pass through the loop head: the loop either runs its body
(`next`), breaks at the seed-score check (`halted`), or exits because
`count < N` fails (`finished`). -/
inductive StepRes (α : Type) where
  | next (st : DecodeState α)
  | halted (st : DecodeState α)
  | finished (st : DecodeState α)
  deriving DecidableEq

/-- One pass through the head of the `while count < seediness.shape[0]` loop
of `fit_predict2`, line by line:
`i = np.argsort(seediness_copy)[::-1][0]`, `seedScore = seediness[i]`,
break if `seedScore < s_threshold`, otherwise append the sphere, evaluate the
kernel on all embeddings, record the probability column, zero the claimed
entries of the copy and add the number of claimed points to `count`. -/
def decodeStep [LinearOrderedField α] (cfg : DecodeCfg α) (st : DecodeState α) :
    StepRes α :=
  if st.count < cfg.seediness.length then
    let i := argmaxLast st.copy
    if cfg.seediness.getD i 0 < cfg.s_threshold then .halted st
    else
      let centroid := cfg.embeddings.getD i []
      let sigma := cfg.margins.getD i 0
      let pValues := cfg.embeddings.map (cfg.fitfunc centroid sigma)
      .next
        { copy := zeroAbove cfg.p_threshold st.copy pValues
          probs := st.probs ++ [pValues]
          spheres := st.spheres ++ [(centroid, sigma)]
          count := st.count + countAbove cfg.p_threshold pValues }
  else .finished st

/-- The initial loop state: `seediness_copy = np.copy(seediness)`, empty
`probs` and `spheres`, `count = 0`. -/
def initState [LinearOrderedField α] (cfg : DecodeCfg α) : DecodeState α :=
  ⟨cfg.seediness, [], [], 0⟩

/-- `k` passes through the loop head, stopping early at a break or a normal
exit (used to state properties of intermediate loop states). -/
def iterN [LinearOrderedField α] (cfg : DecodeCfg α) :
    ℕ → DecodeState α → StepRes α
  | 0, st => .next st
  | k + 1, st =>
    match decodeStep cfg st with
    | .next st' => iterN cfg k st'
    | r => r

/-- Run the discovery loop to completion on the given fuel
(`none` = fuel exhausted). -/
def decodeRun [LinearOrderedField α] (cfg : DecodeCfg α) :
    ℕ → DecodeState α → Option (DecodeState α)
  | 0, _ => none
  | fuel + 1, st =>
    match decodeStep cfg st with
    | .next st' => decodeRun cfg fuel st'
    | .halted st' => some st'
    | .finished st' => some st'

/-- The label a point `p` receives after the loop:
`np.argmax(np.hstack(probs), axis=1)` reads, for row `p`, the entry `p` of
every recorded probability column and takes the first argmax. -/
def labelOfPoint [LinearOrderedField α] (probs : List (List α)) (p : ℕ) : ℤ :=
  (argmaxFirst (probs.map (fun col => col.getD p 0)) : ℤ)

/-- `fit_predict2(embeddings, seediness, margins, fitfunc, s_threshold,
p_threshold)`.  Returns `none` exactly when the fuel `N + 1` is exhausted,
which (see the termination theorem) cannot happen for the Gaussian-type
kernels with `p_threshold < 1`.  When the loop finishes: if no probability
column was recorded the all-`-1` vector is returned, otherwise the argmax
labels; either way the discovered spheres are returned. -/
def fit_predict2 [LinearOrderedField α] (embeddings : List (List α))
    (seediness margins : List α) (fitfunc : List α → α → List α → α)
    (s_threshold p_threshold : α) :
    Option (List ℤ × List (List α × α)) :=
  let cfg : DecodeCfg α :=
    ⟨embeddings, seediness, margins, fitfunc, s_threshold, p_threshold⟩
  (decodeRun cfg (seediness.length + 1) (initState cfg)).map (fun st =>
    if st.probs.isEmpty then
      (List.replicate embeddings.length (-1), st.spheres)
    else
      ((List.range embeddings.length).map (labelOfPoint st.probs), st.spheres))

/-! ## Greedy seed decoder, first-claim policy
(`fit_predict1`, `inference/spatial_embeddings.py:122-145`) and the
`cluster_remainder` post-processing step (lines 112-119). -/

/-- Euclidean norm of a vector (`torch.norm(·, p=2)` with the default
`norm = 2` configuration). -/
noncomputable def vecNormP2 (v : List ℝ) : ℝ :=
  Real.sqrt ((v.map (fun a => a ^ 2)).sum)

/-- `cluster_remainder(embedding, semi_predictions)`: a no-op unless there is
at least one assigned and one unassigned point; otherwise each `-1` point is
reassigned to the index of its nearest centroid among
`predicted_cmeans[1:]` (the first, sentinel-owned centroid is skipped). -/
noncomputable def cluster_remainder (embedding : List (List ℝ))
    (semi_predictions : List ℤ) : List ℤ :=
  if semi_predictions.countP (fun v => decide (v = -1)) = 0 ∨
     semi_predictions.countP (fun v => decide (v ≠ -1)) = 0 then
    semi_predictions
  else
    let cmeans1 := (find_cluster_means embedding semi_predictions).2.drop 1
    (semi_predictions.zip embedding).map (fun p =>
      if p.1 = -1 then
        (argminFirst (cmeans1.map (fun μ =>
          vecNormP2 (List.zipWith (fun a b => a - b) p.2 μ))) : ℤ)
      else p.1)

/-- `fit_predict1(embeddings, seediness, margins, threshold, cluster_all)`.
Its loop body compares `seedScore < s_threshold` where `s_threshold` (like
`fitfunc` and `p_threshold` further down) is neither a parameter nor defined
in any enclosing scope, so the first iteration raises a `NameError`; the
loop body runs iff `check_completion` (all zeros, one per seediness entry)
is non-empty.  The unused `threshold` parameter is kept as in the source. -/
noncomputable def fit_predict1 (embeddings : List (List ℝ))
    (seediness margins : List ℝ) (threshold : ℝ) (cluster_all : Bool) :
    Except String (List ℤ × List (List ℝ × ℝ)) :=
  let pred_labels : List ℤ := List.replicate embeddings.length (-1)
  let check_completion : List Bool := List.replicate seediness.length false
  if check_completion.all (fun b => b) then
    .ok (if cluster_all then (cluster_remainder embeddings pred_labels, [])
         else (pred_labels, []))
  else
    .error "NameError: name s_threshold is not defined"

/-! ## Discriminative loss (`mlreco/models/cluster/loss.py:34-186`) -/

/-- The `1e-8` perturbation torch adds inside every norm in this loss. -/
noncomputable def lossEps : ℝ := 1 / 100000000

/-- `DiscriminativeLoss.intra_cluster_loss` with `norm = 2`: for each sorted
distinct label, the mean over its members of
`clamp(‖x - μ_i + 1e-8‖ - margin, min=0)²`, averaged over the clusters. -/
noncomputable def intra_cluster_loss (features : List (List ℝ))
    (labels : List ℤ) (cluster_means : List (List ℝ)) (margin : ℝ) : ℝ :=
  let cluster_labels := sortedUnique labels
  let n_clusters := cluster_labels.length
  (((List.range n_clusters).map (fun i =>
    let members := memberRows features labels (cluster_labels.getD i 0)
    let hinges := members.map (fun x =>
      (max (vecNormP2 ((List.zipWith (fun a b => a - b) x
        (cluster_means.getD i [])).map (fun d => d + lossEps)) - margin) 0) ^ 2)
    hinges.sum / (hinges.length : ℝ))).sum) / (n_clusters : ℝ)

/-- `DiscriminativeLoss.inter_cluster_loss` with `norm = 2`: `0` when fewer
than two centroids exist, otherwise the sum over ordered pairs of distinct
indices of `clamp(2*margin - ‖μ_i - μ_j + 1e-8‖, min=0)²` divided by
`(n-1)*n` (Python integer arithmetic, then float). -/
noncomputable def inter_cluster_loss (cluster_means : List (List ℝ))
    (margin : ℝ) : ℝ :=
  let n := cluster_means.length
  if n < 2 then 0
  else
    (((List.range n).map (fun i =>
      ((List.range n).map (fun j =>
        if i ≠ j then
          (max (2 * margin - vecNormP2 ((List.zipWith (fun a b => a - b)
            (cluster_means.getD i []) (cluster_means.getD j [])).map
            (fun d => d + lossEps))) 0) ^ 2
        else 0)).sum)).sum) / (((n - 1) * n : ℕ) : ℝ)

/-- `DiscriminativeLoss.regularization`: mean of `‖μ_i + 1e-8‖` over the
centroids. -/
noncomputable def regularization (cluster_means : List (List ℝ)) : ℝ :=
  ((cluster_means.map (fun μ =>
    vecNormP2 (μ.map (fun d => d + lossEps)))).sum) / (cluster_means.length : ℝ)

/-- `DiscriminativeLoss.combine(features, labels, **kwargs)` exactly as the
source executes: it computes the centroids, then calls
`inter_cluster_loss` with `margin=delta_var` and `intra_cluster_loss` with
`margin=delta_dist` (the two margins are passed crosswise, source lines
172-176), and then evaluates `intra_weight * loss_var + ...` — but
`loss_var`, `loss_dist` and `loss_reg` are names never bound in the
function, so the call raises a `NameError` after the losses are computed. -/
noncomputable def combine (features : List (List ℝ)) (labels : List ℤ)
    (intra_margin inter_margin intra_weight inter_weight reg_weight : ℝ) :
    Except String (ℝ × ℝ × ℝ × ℝ) :=
  let c_means := (find_cluster_means features labels).2
  let inter_loss := inter_cluster_loss c_means intra_margin
  let intra_loss := intra_cluster_loss features labels c_means inter_margin
  let reg_loss := regularization c_means
  .error "NameError: name loss_var is not defined"

/-! ## Helper lemmas about the numpy primitives -/

theorem List.getD_default_irrel {α : Type} (l : List α) (i : ℕ)
    (h : i < l.length) (d d' : α) : l.getD i d = l.getD i d' := by
  rw [List.getD_eq_getElem l d h, List.getD_eq_getElem l d' h]

theorem argmaxLast_lt_length {α : Type} [LinearOrder α] :
    ∀ (l : List α), l ≠ [] → argmaxLast l < l.length
  | [], h => absurd rfl h
  | [_], _ => by simp [argmaxLast]
  | x :: y :: ys, _ => by
    have ih := argmaxLast_lt_length (y :: ys) (by simp)
    simp only [argmaxLast]
    split
    · simp
    · simpa using Nat.succ_lt_succ ih

theorem getD_le_argmaxLast {α : Type} [LinearOrder α] :
    ∀ (l : List α) (d e : α) (j : ℕ), j < l.length →
      l.getD j d ≤ l.getD (argmaxLast l) e
  | [], _, _, _, h => by simp at h
  | [x], d, e, j, h => by
    have hj : j = 0 := by simpa using h
    subst hj
    simp [argmaxLast]
  | x :: y :: ys, d, e, j, h => by
    have hlt := argmaxLast_lt_length (y :: ys) (by simp)
    simp only [argmaxLast]
    split
    · next hcase =>
      rcases j with _ | k
      · simp
      · simp only [List.getD_cons_succ, List.getD_cons_zero]
        refine le_trans (le_trans (getD_le_argmaxLast (y :: ys) d y k ?_)
          (le_of_eq rfl)) (le_of_lt hcase)
        simpa using Nat.lt_of_succ_lt_succ h
    · next hcase =>
      push_neg at hcase
      rcases j with _ | k
      · simp only [List.getD_cons_zero, List.getD_cons_succ]
        exact le_trans hcase
          (le_of_eq (List.getD_default_irrel _ _ hlt _ _))
      · simp only [List.getD_cons_succ]
        exact getD_le_argmaxLast (y :: ys) d e k (by simpa using Nat.lt_of_succ_lt_succ h)

theorem argmaxFirst_lt_length {α : Type} [LinearOrder α] :
    ∀ (l : List α), l ≠ [] → argmaxFirst l < l.length
  | [], h => absurd rfl h
  | [_], _ => by simp [argmaxFirst]
  | x :: y :: ys, _ => by
    have ih := argmaxFirst_lt_length (y :: ys) (by simp)
    simp only [argmaxFirst]
    split
    · simpa using Nat.succ_lt_succ ih
    · simp

/-- If the head is at least every element of the tail, `np.argmax` picks the
head (index 0). -/
theorem argmaxFirst_cons_of_le {α : Type} [LinearOrder α] (x : α) (t : List α)
    (hle : ∀ a ∈ t, a ≤ x) : argmaxFirst (x :: t) = 0 := by
  cases t with
  | nil => simp [argmaxFirst]
  | cons y ys =>
    have hlt := argmaxFirst_lt_length (y :: ys) (by simp)
    have hmem : (y :: ys).getD (argmaxFirst (y :: ys)) y ∈ y :: ys := by
      rw [List.getD_eq_getElem _ _ hlt]
      exact List.getElem_mem hlt
    simp only [argmaxFirst]
    rw [if_neg (not_lt.mpr (hle _ hmem))]

theorem countAbove_pos {α : Type} [LinearOrder α] (t : α) :
    ∀ (l : List α) (x : α), x ∈ l → t < x → 0 < countAbove t l
  | [], x, hx, _ => by simp at hx
  | a :: as, x, hx, htx => by
    rcases List.mem_cons.mp hx with rfl | hmem
    · simp only [countAbove, if_pos htx]
      omega
    · have := countAbove_pos t as x hmem htx
      simp only [countAbove]
      omega

theorem countZero_le_length {α : Type} [Zero α] [DecidableEq α] :
    ∀ (l : List α), countZero l ≤ l.length
  | [] => by simp [countZero]
  | x :: xs => by
    have := countZero_le_length xs
    simp only [countZero, List.length_cons]
    split <;> omega

/-- If fewer entries are zero than the list is long, some valid index holds a
nonzero entry. -/
theorem exists_getD_ne_zero_of_countZero_lt {α : Type} [Zero α] [DecidableEq α] :
    ∀ (l : List α), countZero l < l.length →
      ∃ j, j < l.length ∧ l.getD j 0 ≠ 0
  | [], h => by simp [countZero] at h
  | x :: xs, h => by
    by_cases hx : x = 0
    · have hlt : countZero xs < xs.length := by
        simp only [countZero, if_pos hx, List.length_cons] at h
        omega
      obtain ⟨j, hj, hne⟩ := exists_getD_ne_zero_of_countZero_lt xs hlt
      exact ⟨j + 1, by simpa using Nat.succ_lt_succ hj, by simpa using hne⟩
    · exact ⟨0, by simp, by simpa using hx⟩

theorem countZero_replicate_false_like {α : Type} [Zero α] [DecidableEq α]
    (l : List α) (h : ∀ x ∈ l, x ≠ 0) : countZero l = 0 := by
  induction l with
  | nil => rfl
  | cons x xs ih =>
    simp only [countZero, if_neg (h x (by simp))]
    simpa using ih (fun a ha => h a (by simp [ha]))

theorem length_zeroAbove {α : Type} [LinearOrder α] [Zero α] (t : α)
    (c p : List α) : (zeroAbove t c p).length = min c.length p.length := by
  simp [zeroAbove]

theorem zeroAbove_getD_cases {α : Type} [LinearOrder α] [Zero α] (t : α) :
    ∀ (c p : List α) (j : ℕ),
      (zeroAbove t c p).getD j 0 = c.getD j 0 ∨ (zeroAbove t c p).getD j 0 = 0
  | [], p, j => by simp [zeroAbove]
  | c :: cs, [], j => by simp [zeroAbove]
  | c :: cs, p :: ps, 0 => by
    simp only [zeroAbove, List.zipWith_cons_cons, List.getD_cons_zero]
    split
    · exact Or.inr rfl
    · exact Or.inl rfl
  | c :: cs, p :: ps, j + 1 => by
    simpa only [zeroAbove, List.zipWith_cons_cons, List.getD_cons_succ] using
      zeroAbove_getD_cases t cs ps j

theorem countZero_zeroAbove_le {α : Type} [LinearOrder α] [Zero α]
    [DecidableEq α] (t : α) :
    ∀ (c p : List α),
      countZero (zeroAbove t c p) ≤ countZero c + countAbove t p
  | [], p => by simp [zeroAbove, countZero]
  | c :: cs, [] => by simp [zeroAbove, countZero]
  | c :: cs, p :: ps => by
    have ih := countZero_zeroAbove_le t cs ps
    simp only [zeroAbove] at ih
    simp only [zeroAbove, List.zipWith_cons_cons, countZero, countAbove]
    by_cases hp : t < p
    · simp only [if_pos hp, eq_self_iff_true, if_true]
      split <;> omega
    · simp only [if_neg hp]
      split <;> omega

/-! ## Claim C2: the geometry kernels -/

/-- **C2.** The claim states that both kernels return a probability in
`(0,1]`, monotonically decreasing in distance, with the ellipsoidal kernel
equal to `exp(-Σ_k (x_k-c_k)²/(2σ_k²))`.  The Gaussian kernel satisfies this
(last three conjuncts, at concrete points), but the source of
`ellipsoidal_kernel` negates `dists` twice (`np.exp(-np.sum(-dists))`), so at
centroid `[0]`, bandwidth `[1]` and point `[2]` it returns `exp 2 > 1`,
*increasing* with distance, while the spec formula gives `exp (-2)`: the code
contradicts the claim (and the spec's own formula) — a sign slip in the code. -/
theorem c2_ellipsoidal_kernel_bug :
    ellipsoidal_kernel [0] [1] [2] = Real.exp 2 ∧
    1 < ellipsoidal_kernel [0] [1] [2] ∧
    ellipsoidal_kernel [0] [1] [2] < ellipsoidal_kernel [0] [1] [3] ∧
    ellipsoidal_kernel_spec [0] [1] [2] = Real.exp (-2) ∧
    gaussian_kernel [0] 1 [3] < gaussian_kernel [0] 1 [2] ∧
    gaussian_kernel [0] 1 [2] ≤ 1 ∧
    0 < gaussian_kernel [0] 1 [2] := by
  have h2 : ellipsoidal_kernel [0] [1] [2] = Real.exp 2 := by
    simp [ellipsoidal_kernel]
    norm_num
  have h3 : ellipsoidal_kernel [0] [1] [3] = Real.exp (9/2) := by
    simp [ellipsoidal_kernel]
    norm_num
  have hs : ellipsoidal_kernel_spec [0] [1] [2] = Real.exp (-2) := by
    simp [ellipsoidal_kernel_spec]
    norm_num
  have hg2 : gaussian_kernel [0] 1 [2] = Real.exp (-2) := by
    simp [gaussian_kernel, sqDist]
    norm_num
  have hg3 : gaussian_kernel [0] 1 [3] = Real.exp (-(9/2)) := by
    simp [gaussian_kernel, sqDist]
    norm_num
  refine ⟨h2, ?_, ?_, hs, ?_, ?_, ?_⟩
  · rw [h2, show (1:ℝ) = Real.exp 0 from Real.exp_zero.symm]
    exact Real.exp_lt_exp.mpr (by norm_num)
  · rw [h2, h3]
    exact Real.exp_lt_exp.mpr (by norm_num)
  · rw [hg2, hg3]
    exact Real.exp_lt_exp.mpr (by norm_num)
  · rw [hg2, show (1:ℝ) = Real.exp 0 from Real.exp_zero.symm]
    exact Real.exp_le_exp.mpr (by norm_num)
  · rw [hg2]
    exact Real.exp_pos _

/-! ## Claim C5: `DiscriminativeLoss.combine` -/

/-- **C5.** The claim states that `combine` hinges the intra-cluster loss on
`intra_margin`, the inter-cluster loss on `inter_margin`, and returns the
weighted sum as `total_loss`.  In the source the two margins are passed
crosswise (lines 172-176) and the final sum reads the unbound names
`loss_var`, `loss_dist`, `loss_reg` (line 179), so every call raises a
`NameError` instead of returning anything: evaluated here at one point with
one cluster and the configured default hyperparameters. -/
theorem c5_combine_raises_nameerror :
    combine [[0, 0]] [0] (1/2) (3/2) 1 1 (1/1000) =
      .error "NameError: name loss_var is not defined" := rfl

/-! ## Claim C9: the F-score of the evaluation harness -/

/-- **C9 counterexample.** The claim states the harness' F-score division is
guarded so that `purity + efficiency = 0` yields a defined value.  The spec
gives `[0,1]` as the range of purity and efficiency, so `(0, 0)` is an
admissible pair, and on it the unguarded division of
`fscore = 2*(purity*efficiency)/(purity+efficiency)` (source line 225) has a
zero denominator: no defined value is produced. -/
theorem c9_counterexample :
    ((0:ℚ) ∈ Set.Icc (0:ℚ) 1 ∧ (0:ℚ) ∈ Set.Icc (0:ℚ) 1) ∧
    fscore 0 0 = none :=
  ⟨⟨by constructor <;> norm_num, by constructor <;> norm_num⟩, by simp [fscore]⟩

/-- **C9 amended.** For purity and efficiency in `[0,1]` whose sum is
nonzero, the F-score equals `2·p·e/(p+e)`, lies in `[0,1]`, and is `0` when
either input is `0`; when the sum is zero the unguarded division yields no
defined value (see the counterexample). -/
theorem c9_fscore_amended (p e : ℚ) (hp0 : 0 ≤ p) (hp1 : p ≤ 1)
    (he0 : 0 ≤ e) (he1 : e ≤ 1) (hne : p + e ≠ 0) :
    fscore p e = some (2 * (p * e) / (p + e)) ∧
    0 ≤ 2 * (p * e) / (p + e) ∧
    2 * (p * e) / (p + e) ≤ 1 ∧
    ((p = 0 ∨ e = 0) → 2 * (p * e) / (p + e) = 0) := by
  have hsum : 0 < p + e := lt_of_le_of_ne (by linarith) (Ne.symm hne)
  refine ⟨by simp [fscore, hne], ?_, ?_, ?_⟩
  · exact div_nonneg (by nlinarith) (le_of_lt hsum)
  · rw [div_le_one hsum]
    nlinarith
  · rintro (rfl | rfl) <;> simp

/-- Witness for the amended C9 at `purity = efficiency = 1/2`. -/
theorem c9_fscore_amended_witness :
    (0 ≤ (1:ℚ)/2 ∧ (1:ℚ)/2 ≤ 1 ∧ (1:ℚ)/2 + 1/2 ≠ 0) ∧
    (fscore (1/2) (1/2) = some (2 * ((1:ℚ)/2 * (1/2)) / ((1:ℚ)/2 + 1/2)) ∧
     0 ≤ 2 * ((1:ℚ)/2 * (1/2)) / ((1:ℚ)/2 + 1/2) ∧
     2 * ((1:ℚ)/2 * (1/2)) / ((1:ℚ)/2 + 1/2) ≤ 1 ∧
     (((1:ℚ)/2 = 0 ∨ (1:ℚ)/2 = 0) → 2 * ((1:ℚ)/2 * (1/2)) / ((1:ℚ)/2 + 1/2) = 0)) :=
  ⟨⟨by norm_num, by norm_num, by norm_num⟩,
   c9_fscore_amended (1/2) (1/2) (by norm_num) (by norm_num) (by norm_num)
     (by norm_num) (by norm_num)⟩

/-! ## Claim C10: `fit_predict1` raises a `NameError` -/

/-- **C10.** On any non-empty input (with the seediness vector of matching
length, as the data model requires) the first-claim decoder enters its loop
and immediately evaluates `seedScore < s_threshold`, a name that is neither a
parameter nor defined in any enclosing scope, so a `NameError` is raised
before any label is produced; on the empty input the loop guard
`check_completion.all()` is vacuously true and the function returns the
empty label vector and empty sphere list. -/
theorem c10_fit_predict1_nameerror (embeddings : List (List ℝ))
    (seediness margins : List ℝ) (threshold : ℝ) (cluster_all : Bool)
    (hne : embeddings ≠ []) (hlen : seediness.length = embeddings.length) :
    fit_predict1 embeddings seediness margins threshold cluster_all =
      .error "NameError: name s_threshold is not defined" ∧
    fit_predict1 [] [] margins threshold cluster_all = .ok ([], []) := by
  constructor
  · have h0 : seediness.length ≠ 0 := by
      rw [hlen]
      simpa using hne
    unfold fit_predict1
    rcases hs : seediness.length with _ | n
    · exact absurd hs h0
    · simp [hs, List.replicate_succ]
  · cases cluster_all <;> simp [fit_predict1, cluster_remainder]

/-- Witness for C10 on a one-point input. -/
theorem c10_fit_predict1_nameerror_witness :
    ([[(0:ℝ)]] ≠ [] ∧ ([(1:ℝ)]).length = [[(0:ℝ)]].length) ∧
    (fit_predict1 [[(0:ℝ)]] [1] [1] (9/10) false =
       .error "NameError: name s_threshold is not defined" ∧
     fit_predict1 [] [] [1] (9/10) false = .ok ([], [])) :=
  ⟨⟨by simp, by simp⟩,
   c10_fit_predict1_nameerror [[(0:ℝ)]] [1] [1] (9/10) false (by simp) (by simp)⟩

/-! ## Claim C3: the centroid estimator -/

theorem sortedUnique_sorted (labels : List ℤ) :
    List.Sorted (fun a b : ℤ => a ≤ b) (sortedUnique labels) :=
  List.sorted_insertionSort _ _

theorem sortedUnique_nodup (labels : List ℤ) : (sortedUnique labels).Nodup :=
  (List.perm_insertionSort _ _).nodup_iff.mpr (List.nodup_dedup labels)

theorem sortedUnique_mem (labels : List ℤ) (c : ℤ) :
    c ∈ sortedUnique labels ↔ c ∈ labels :=
  (List.perm_insertionSort _ _).mem_iff.trans (List.mem_dedup)

/-- **C3.** For a non-empty `N×d` feature matrix and a length-`N` integer
label vector with `k` distinct values (also non-contiguous or negative),
`find_cluster_means` returns the distinct labels sorted ascending without
duplicates, exactly `k` centroid rows, and row `i` is the mean of the
feature rows labelled with the `i`-th sorted distinct label (each such group
being non-empty, so the mean divides by a positive member count). -/
theorem c3_find_cluster_means {α : Type} [LinearOrderedField α]
    (features : List (List α)) (labels : List ℤ)
    (hne : features ≠ []) (hlen : labels.length = features.length) :
    List.Sorted (fun a b : ℤ => a ≤ b) (find_cluster_means features labels).1 ∧
    (find_cluster_means features labels).1.Nodup ∧
    (∀ c : ℤ, c ∈ (find_cluster_means features labels).1 ↔ c ∈ labels) ∧
    (find_cluster_means features labels).2.length =
      (find_cluster_means features labels).1.length ∧
    (∀ i, i < (find_cluster_means features labels).1.length →
      memberRows features labels ((find_cluster_means features labels).1.getD i 0)
        ≠ [] ∧
      (find_cluster_means features labels).2.getD i [] =
        vecMean (memberRows features labels
          ((find_cluster_means features labels).1.getD i 0))) := by
  refine ⟨sortedUnique_sorted labels, sortedUnique_nodup labels,
    fun c => sortedUnique_mem labels c, by simp [find_cluster_means], ?_⟩
  intro i hi
  simp only [find_cluster_means] at hi ⊢
  constructor
  · -- the i-th distinct label has at least one member row
    set c := (sortedUnique labels).getD i 0 with hc
    have hcmem : c ∈ sortedUnique labels := by
      rw [hc, List.getD_eq_getElem _ _ hi]
      exact List.getElem_mem hi
    have hclab : c ∈ labels := (sortedUnique_mem labels c).mp hcmem
    obtain ⟨j, hj, hjc⟩ := List.getElem_of_mem hclab
    have hjz : j < (labels.zip features).length := by
      rw [List.length_zip, hlen]
      omega
    have hmem2 := List.getElem_mem hjz
    rw [List.getElem_zip, hjc] at hmem2
    exact List.ne_nil_of_mem (List.mem_map_of_mem _
      (List.mem_filter.mpr ⟨hmem2, by simp⟩))
  · -- row i of the centroid matrix is the mean of the members of label i
    rw [List.getD_eq_getElem _ _ (by simpa using hi), List.getElem_map]
    congr 1
    rw [List.getD_eq_getElem _ _ hi]

/-- Witness for C3 on a 2-point, 2-label input with a negative and a
non-contiguous label. -/
theorem c3_find_cluster_means_witness :
    (([[(1:ℚ)], [3]] : List (List ℚ)) ≠ [] ∧
      ([5, -2] : List ℤ).length = ([[(1:ℚ)], [3]] : List (List ℚ)).length) ∧
    (List.Sorted (fun a b : ℤ => a ≤ b)
        (find_cluster_means [[(1:ℚ)], [3]] [5, -2]).1 ∧
     (find_cluster_means [[(1:ℚ)], [3]] [5, -2]).1.Nodup ∧
     (∀ c : ℤ, c ∈ (find_cluster_means [[(1:ℚ)], [3]] [5, -2]).1 ↔
        c ∈ ([5, -2] : List ℤ)) ∧
     (find_cluster_means [[(1:ℚ)], [3]] [5, -2]).2.length =
        (find_cluster_means [[(1:ℚ)], [3]] [5, -2]).1.length ∧
     (∀ i, i < (find_cluster_means [[(1:ℚ)], [3]] [5, -2]).1.length →
        memberRows [[(1:ℚ)], [3]] [5, -2]
          ((find_cluster_means [[(1:ℚ)], [3]] [5, -2]).1.getD i 0) ≠ [] ∧
        (find_cluster_means [[(1:ℚ)], [3]] [5, -2]).2.getD i [] =
          vecMean (memberRows [[(1:ℚ)], [3]] [5, -2]
            ((find_cluster_means [[(1:ℚ)], [3]] [5, -2]).1.getD i 0)))) :=
  ⟨⟨by simp, by simp⟩,
   c3_find_cluster_means [[(1:ℚ)], [3]] [5, -2] (by simp) (by simp)⟩

/-! ## Claim C4: the inter-cluster loss -/

theorem list_range_map_sum (f : ℕ → ℝ) (n : ℕ) :
    ((List.range n).map f).sum = ∑ i in Finset.range n, f i := by
  induction n with
  | zero => simp
  | succ k ih =>
    rw [List.range_succ, List.map_append, List.sum_append,
      Finset.sum_range_succ, ih]
    simp

/-- **C4.** `inter_cluster_loss` returns exactly `0` whenever fewer than two
centroids exist, independent of the embedding values; with `n ≥ 2` centroids
it returns the sum, over ordered pairs of distinct centroid indices, of
`max(0, 2·margin − ‖μ_i − μ_j + 1e-8‖)²`, divided by `n·(n−1)` (the `1e-8`
inside the norm is the source's perturbation, which the claim's
floating-point-tolerance proviso allows for). -/
theorem c4_inter_cluster_loss (cluster_means : List (List ℝ)) (margin : ℝ) :
    inter_cluster_loss cluster_means margin =
      if cluster_means.length < 2 then 0
      else
        (∑ p in ((Finset.range cluster_means.length) ×ˢ
            (Finset.range cluster_means.length)).filter
              (fun p => p.1 ≠ p.2),
          (max (2 * margin - vecNormP2 ((List.zipWith (fun a b => a - b)
            (cluster_means.getD p.1 []) (cluster_means.getD p.2 [])).map
            (fun d => d + lossEps))) 0) ^ 2) /
        ((cluster_means.length : ℝ) * ((cluster_means.length : ℝ) - 1)) := by
  unfold inter_cluster_loss
  by_cases h : cluster_means.length < 2
  · simp [h]
  · rw [if_neg h, if_neg h]
    have hn : 1 ≤ cluster_means.length := by omega
    congr 1
    · rw [list_range_map_sum]
      rw [Finset.sum_filter, Finset.sum_product]
      refine Finset.sum_congr rfl (fun i _ => ?_)
      rw [list_range_map_sum]
    · push_cast [Nat.cast_sub hn]
      ring

/-! ## Claim C6: seed selection and the stopping rule of `fit_predict2` -/

/-- A kernel factory used to drive the decoder on decidable rational inputs:
the produced kernel scores the centroid itself `4` and everything else `0`. -/
def c6fitfunc : List ℚ → ℚ → List ℚ → ℚ := fun c _ x => if x = c then 4 else 0

/-- The C6 counterexample input: two far-apart points, seediness `[-1, 2]`
(the spec allows negative seediness: it is "in principle unbounded"),
`s_threshold = 0`, `p_threshold = 3`. -/
def c6cfg : DecodeCfg ℚ := ⟨[[0], [1]], [-1, 2], [1, 1], c6fitfunc, 0, 3⟩

/-- **C6 counterexample.**  The claim states that every newly created sphere
is seeded at a point not already peeled and that the loop stops as soon as
the highest remaining (not-yet-zeroed) seediness is below `s_threshold` —
explicitly also for inputs with negative seediness.  On `c6cfg`: after one
iteration the copy is `[-1, 0]` (point 1 was claimed and peeled; its original
seediness `2` is nonzero), the second iteration again picks index 1 (the
argmax of the copy — an already-peeled point), and although the only
unpeeled point has remaining seediness `-1 < 0 = s_threshold` the loop does
not stop: it creates a second sphere seeded at the peeled point 1. -/
theorem c6_counterexample :
    iterN c6cfg 1 (initState c6cfg) =
      .next ⟨[-1, 0], [[0, 4]], [([1], 1)], 1⟩ ∧
    argmaxLast ([-1, 0] : List ℚ) = 1 ∧
    ([-1, 0] : List ℚ).getD 1 0 = 0 ∧
    c6cfg.seediness.getD 1 0 ≠ 0 ∧
    ([-1, 0] : List ℚ).getD 0 0 < c6cfg.s_threshold ∧
    decodeStep c6cfg ⟨[-1, 0], [[0, 4]], [([1], 1)], 1⟩ =
      .next ⟨[-1, 0], [[0, 4], [0, 4]], [([1], 1), ([1], 1)], 2⟩ := by
  decide

/-- The loop invariant of the discovery loop: the copy has one entry per
seediness entry, every copy entry is either the original seediness value or
zero (peeled), and at least as many points have been counted as have been
peeled to zero. -/
def DecodeInv {α : Type} [LinearOrderedField α] (cfg : DecodeCfg α)
    (st : DecodeState α) : Prop :=
  st.copy.length = cfg.seediness.length ∧
  (∀ j, st.copy.getD j 0 = cfg.seediness.getD j 0 ∨ st.copy.getD j 0 = 0) ∧
  countZero st.copy ≤ st.count

/-- Elimination of a `next` step: the loop ran its body, so the count was
below `N`, the seed score passed the threshold test, and the new state is
the explicit update of the old one. -/
theorem decodeStep_next_elim {α : Type} [LinearOrderedField α]
    (cfg : DecodeCfg α) (st st' : DecodeState α)
    (h : decodeStep cfg st = .next st') :
    st.count < cfg.seediness.length ∧
    ¬ (cfg.seediness.getD (argmaxLast st.copy) 0 < cfg.s_threshold) ∧
    st' = { copy := zeroAbove cfg.p_threshold st.copy
              (cfg.embeddings.map (cfg.fitfunc
                (cfg.embeddings.getD (argmaxLast st.copy) [])
                (cfg.margins.getD (argmaxLast st.copy) 0)))
            probs := st.probs ++ [cfg.embeddings.map (cfg.fitfunc
                (cfg.embeddings.getD (argmaxLast st.copy) [])
                (cfg.margins.getD (argmaxLast st.copy) 0))]
            spheres := st.spheres ++ [(cfg.embeddings.getD (argmaxLast st.copy) [],
                cfg.margins.getD (argmaxLast st.copy) 0)]
            count := st.count + countAbove cfg.p_threshold
              (cfg.embeddings.map (cfg.fitfunc
                (cfg.embeddings.getD (argmaxLast st.copy) [])
                (cfg.margins.getD (argmaxLast st.copy) 0))) } := by
  unfold decodeStep at h
  split at h
  · dsimp only [] at h
    split at h
    · exact absurd h (by simp)
    · next hsc =>
      refine ⟨by assumption, hsc, ?_⟩
      injection h with h
      exact h.symm
  · exact absurd h (by simp)

/-- The other two step results leave the state unchanged. -/
theorem decodeStep_halted_elim {α : Type} [LinearOrderedField α]
    (cfg : DecodeCfg α) (st st' : DecodeState α)
    (h : decodeStep cfg st = .halted st') : st' = st := by
  unfold decodeStep at h
  split at h
  · dsimp only [] at h
    split at h
    · injection h with h
      exact h.symm
    · exact absurd h (by simp)
  · exact absurd h (by simp)

theorem decodeInv_init {α : Type} [LinearOrderedField α] (cfg : DecodeCfg α)
    (hpos : ∀ x ∈ cfg.seediness, 0 < x) : DecodeInv cfg (initState cfg) := by
  refine ⟨rfl, fun j => Or.inl rfl, ?_⟩
  have : countZero cfg.seediness = 0 :=
    countZero_replicate_false_like _ (fun x hx => ne_of_gt (hpos x hx))
  simp [initState, this]

theorem decodeInv_step {α : Type} [LinearOrderedField α] (cfg : DecodeCfg α)
    (hlen : cfg.embeddings.length = cfg.seediness.length)
    (st st' : DecodeState α) (hinv : DecodeInv cfg st)
    (h : decodeStep cfg st = .next st') : DecodeInv cfg st' := by
  obtain ⟨hclen, hdisj, hcz⟩ := hinv
  obtain ⟨hcount, hsc, rfl⟩ := decodeStep_next_elim cfg st st' h
  refine ⟨?_, ?_, ?_⟩
  · rw [length_zeroAbove, List.length_map, hlen, hclen]
    exact Nat.min_self _
  · intro j
    rcases zeroAbove_getD_cases cfg.p_threshold st.copy _ j with hcase | hcase
    · rw [hcase]
      exact hdisj j
    · exact Or.inr hcase
  · calc countZero (zeroAbove cfg.p_threshold st.copy _)
        ≤ countZero st.copy + countAbove cfg.p_threshold _ :=
          countZero_zeroAbove_le _ _ _
      _ ≤ st.count + countAbove cfg.p_threshold _ := by omega

theorem decodeInv_iterN {α : Type} [LinearOrderedField α] (cfg : DecodeCfg α)
    (hlen : cfg.embeddings.length = cfg.seediness.length) :
    ∀ (k : ℕ) (st st' : DecodeState α), DecodeInv cfg st →
      iterN cfg k st = .next st' → DecodeInv cfg st'
  | 0, st, st', hinv, h => by
    simp only [iterN] at h
    injection h with h
    exact h ▸ hinv
  | k + 1, st, st', hinv, h => by
    simp only [iterN] at h
    cases hd : decodeStep cfg st with
    | next st1 =>
      rw [hd] at h
      exact decodeInv_iterN cfg hlen k st1 st'
        (decodeInv_step cfg hlen st st1 hinv hd) h
    | halted st1 =>
      rw [hd] at h
      exact absurd h (by simp)
    | finished st1 =>
      rw [hd] at h
      exact absurd h (by simp)

/-- **C6 amended.**  When every seediness value is strictly positive, each
newly created sphere is indeed seeded at a point that has not been peeled
(the copy at the chosen index is nonzero and still holds the original
seediness value), and the loop breaks exactly when every not-yet-peeled
point's seediness is below `s_threshold` (equivalently: when the highest
remaining seediness is).  With zero or negative seediness values the claim
fails as stated (see the counterexample): the code checks the *original*
seediness at the argmax of the *zeroed copy*, and these differ on peeled
points. -/
theorem c6_seed_selection_amended {α : Type} [LinearOrderedField α]
    (cfg : DecodeCfg α)
    (hlen : cfg.embeddings.length = cfg.seediness.length)
    (hpos : ∀ x ∈ cfg.seediness, 0 < x)
    (k : ℕ) (st : DecodeState α)
    (hreach : iterN cfg k (initState cfg) = .next st)
    (hlt : st.count < cfg.seediness.length) :
    (st.copy.getD (argmaxLast st.copy) 0 ≠ 0 ∧
     st.copy.getD (argmaxLast st.copy) 0 =
       cfg.seediness.getD (argmaxLast st.copy) 0) ∧
    ((decodeStep cfg st = .halted st) ↔
      ∀ j, j < cfg.seediness.length → st.copy.getD j 0 ≠ 0 →
        cfg.seediness.getD j 0 < cfg.s_threshold) := by
  obtain ⟨hclen, hdisj, hcz⟩ :=
    decodeInv_iterN cfg hlen k _ st (decodeInv_init cfg hpos) hreach
  -- some index is still unpeeled
  have hczlt : countZero st.copy < st.copy.length := by
    rw [hclen]
    omega
  obtain ⟨j0, hj0, hj0ne⟩ := exists_getD_ne_zero_of_countZero_lt st.copy hczlt
  have hj0eq : st.copy.getD j0 0 = cfg.seediness.getD j0 0 :=
    (hdisj j0).resolve_right hj0ne
  have hj0pos : 0 < st.copy.getD j0 0 := by
    rw [hj0eq]
    refine hpos _ ?_
    rw [List.getD_eq_getElem _ _ (hclen ▸ hj0)]
    exact List.getElem_mem _
  have hne : st.copy ≠ [] := by
    intro hempty
    rw [hempty] at hj0
    simp at hj0
  have hi := argmaxLast_lt_length st.copy hne
  -- the argmax value dominates the unpeeled value, hence is positive
  have hival : 0 < st.copy.getD (argmaxLast st.copy) 0 :=
    lt_of_lt_of_le hj0pos (getD_le_argmaxLast st.copy 0 0 j0 hj0)
  have hine : st.copy.getD (argmaxLast st.copy) 0 ≠ 0 := ne_of_gt hival
  have hieq : st.copy.getD (argmaxLast st.copy) 0 =
      cfg.seediness.getD (argmaxLast st.copy) 0 :=
    (hdisj _).resolve_right hine
  refine ⟨⟨hine, hieq⟩, ?_⟩
  have hstepif : decodeStep cfg st = .halted st ↔
      cfg.seediness.getD (argmaxLast st.copy) 0 < cfg.s_threshold := by
    unfold decodeStep
    rw [if_pos hlt]
    dsimp only []
    by_cases hc : cfg.seediness.getD (argmaxLast st.copy) 0 < cfg.s_threshold
    · rw [if_pos hc]
      exact iff_of_true rfl hc
    · rw [if_neg hc]
      refine iff_of_false ?_ hc
      simp
  rw [hstepif]
  constructor
  · intro h j hjN hjne
    have hjeq := (hdisj j).resolve_right hjne
    have hjle := getD_le_argmaxLast st.copy 0 0 j (hclen ▸ hjN)
    rw [hjeq, hieq] at hjle
    exact lt_of_le_of_lt hjle h
  · intro h
    exact h (argmaxLast st.copy) (hclen ▸ hi) hine

/-- A one-point, all-positive-seediness input for the amended C6, with
`s_threshold = 2` so that the loop halts at its first seed-score check. -/
def c6posCfg : DecodeCfg ℚ := ⟨[[0]], [1], [1], c6fitfunc, 2, 3⟩

/-- Witness for the amended C6 at `c6posCfg`, iteration `k = 0`. -/
theorem c6_seed_selection_amended_witness :
    (c6posCfg.embeddings.length = c6posCfg.seediness.length ∧
     (∀ x ∈ c6posCfg.seediness, 0 < x) ∧
     iterN c6posCfg 0 (initState c6posCfg) = .next (initState c6posCfg) ∧
     (initState c6posCfg).count < c6posCfg.seediness.length) ∧
    (((initState c6posCfg).copy.getD
        (argmaxLast (initState c6posCfg).copy) 0 ≠ 0 ∧
      (initState c6posCfg).copy.getD
        (argmaxLast (initState c6posCfg).copy) 0 =
        c6posCfg.seediness.getD
          (argmaxLast (initState c6posCfg).copy) 0) ∧
     ((decodeStep c6posCfg (initState c6posCfg) =
         .halted (initState c6posCfg)) ↔
       ∀ j, j < c6posCfg.seediness.length →
         (initState c6posCfg).copy.getD j 0 ≠ 0 →
           c6posCfg.seediness.getD j 0 < c6posCfg.s_threshold)) :=
  ⟨⟨rfl, by decide, rfl, by decide⟩,
   c6_seed_selection_amended c6posCfg rfl (by decide) 0 _ rfl (by decide)⟩

/-! ## Claim C7: termination of the discovery loop -/

theorem decodeStep_finished_elim {α : Type} [LinearOrderedField α]
    (cfg : DecodeCfg α) (st st' : DecodeState α)
    (h : decodeStep cfg st = .finished st') : st' = st := by
  unfold decodeStep at h
  split at h
  · dsimp only [] at h
    split at h
    · exact absurd h (by simp)
    · exact absurd h (by simp)
  · injection h with h
    exact h.symm

theorem decodeStep_next_copyLen {α : Type} [LinearOrderedField α]
    (cfg : DecodeCfg α)
    (hlen : cfg.embeddings.length = cfg.seediness.length)
    (st st' : DecodeState α)
    (hcl : st.copy.length = cfg.seediness.length)
    (h : decodeStep cfg st = .next st') :
    st'.copy.length = cfg.seediness.length := by
  obtain ⟨-, -, rfl⟩ := decodeStep_next_elim cfg st st' h
  rw [length_zeroAbove, List.length_map, hlen, hcl]
  exact Nat.min_self _

/-- If the kernel scores the seed point itself `1` and `p_threshold < 1`,
every loop body run claims at least the seed, so `count` strictly grows. -/
theorem decodeStep_next_count_lt {α : Type} [LinearOrderedField α]
    (cfg : DecodeCfg α)
    (hlen : cfg.embeddings.length = cfg.seediness.length)
    (hp : cfg.p_threshold < 1)
    (hker : ∀ c σ, cfg.fitfunc c σ c = 1)
    (st st' : DecodeState α)
    (hcl : st.copy.length = cfg.seediness.length)
    (h : decodeStep cfg st = .next st') : st.count < st'.count := by
  obtain ⟨hcount, -, rfl⟩ := decodeStep_next_elim cfg st st' h
  have hN : 0 < cfg.seediness.length := by omega
  have hne : st.copy ≠ [] := by
    intro hempty
    rw [hempty] at hcl
    simp at hcl
    omega
  have hiE : argmaxLast st.copy < cfg.embeddings.length := by
    rw [hlen, ← hcl]
    exact argmaxLast_lt_length st.copy hne
  set i := argmaxLast st.copy
  set c := cfg.embeddings.getD i []
  set σ := cfg.margins.getD i 0
  have hiP : i < (cfg.embeddings.map (cfg.fitfunc c σ)).length := by
    rw [List.length_map]
    exact hiE
  have hval : (cfg.embeddings.map (cfg.fitfunc c σ)).getD i 0 = 1 := by
    rw [List.getD_eq_getElem _ _ hiP, List.getElem_map]
    have hgetc : cfg.embeddings[i] = c :=
      (List.getD_eq_getElem _ _ hiE).symm
    rw [hgetc]
    exact hker c σ
  have hmem : (1 : α) ∈ cfg.embeddings.map (cfg.fitfunc c σ) := by
    rw [← hval, List.getD_eq_getElem _ _ hiP]
    exact List.getElem_mem hiP
  have := countAbove_pos cfg.p_threshold _ 1 hmem hp
  simp only [DecodeState.count]
  omega

theorem decodeRun_isSome_of_fuel {α : Type} [LinearOrderedField α]
    (cfg : DecodeCfg α)
    (hlen : cfg.embeddings.length = cfg.seediness.length)
    (hp : cfg.p_threshold < 1)
    (hker : ∀ c σ, cfg.fitfunc c σ c = 1) :
    ∀ (fuel : ℕ) (st : DecodeState α),
      st.copy.length = cfg.seediness.length →
      cfg.seediness.length - st.count < fuel →
      (decodeRun cfg fuel st).isSome
  | 0, st, _, hfuel => by omega
  | fuel + 1, st, hcl, hfuel => by
    unfold decodeRun
    cases hd : decodeStep cfg st with
    | next st1 =>
      have hlt := decodeStep_next_count_lt cfg hlen hp hker st st1 hcl hd
      have hcl1 := decodeStep_next_copyLen cfg hlen st st1 hcl hd
      have hcount := (decodeStep_next_elim cfg st st1 hd).1
      exact decodeRun_isSome_of_fuel cfg hlen hp hker fuel st1 hcl1 (by omega)
    | halted st1 => simp
    | finished st1 => simp

theorem copyLen_iterN {α : Type} [LinearOrderedField α] (cfg : DecodeCfg α)
    (hlen : cfg.embeddings.length = cfg.seediness.length) :
    ∀ (k : ℕ) (st st' : DecodeState α),
      st.copy.length = cfg.seediness.length →
      iterN cfg k st = .next st' → st'.copy.length = cfg.seediness.length
  | 0, st, st', hcl, h => by
    simp only [iterN] at h
    injection h with h
    exact h ▸ hcl
  | k + 1, st, st', hcl, h => by
    simp only [iterN] at h
    cases hd : decodeStep cfg st with
    | next st1 =>
      rw [hd] at h
      exact copyLen_iterN cfg hlen k st1 st'
        (decodeStep_next_copyLen cfg hlen st st1 hcl hd) h
    | halted st1 =>
      rw [hd] at h
      exact absurd h (by simp)
    | finished st1 =>
      rw [hd] at h
      exact absurd h (by simp)

/-- **C7.** For an input whose kernel evaluates to `1` at its own seed point
(true of the Gaussian-type kernels) and whose `p_threshold` is below `1`,
every iteration of the discovery loop that creates a sphere claims at least
its seed and strictly increases the running count (first conjunct); in
consequence the loop of `fit_predict2` terminates: on fuel `N + 1` the run
completes and the decoder returns a result (second conjunct). -/
theorem c7_decoder_terminates {α : Type} [LinearOrderedField α]
    (embeddings : List (List α)) (seediness margins : List α)
    (fitfunc : List α → α → List α → α) (s_threshold p_threshold : α)
    (hlen : embeddings.length = seediness.length)
    (hp : p_threshold < 1)
    (hker : ∀ c σ, fitfunc c σ c = 1) :
    (∀ (k : ℕ) (st st' : DecodeState α),
      iterN ⟨embeddings, seediness, margins, fitfunc, s_threshold, p_threshold⟩
          k (initState ⟨embeddings, seediness, margins, fitfunc, s_threshold,
            p_threshold⟩) = .next st →
      decodeStep ⟨embeddings, seediness, margins, fitfunc, s_threshold,
          p_threshold⟩ st = .next st' →
      st.count < st'.count) ∧
    (fit_predict2 embeddings seediness margins fitfunc
        s_threshold p_threshold).isSome := by
  constructor
  · intro k st st' hreach hstep
    exact decodeStep_next_count_lt _ hlen hp hker st st'
      (copyLen_iterN _ hlen k _ st rfl hreach) hstep
  · unfold fit_predict2
    have hrun := decodeRun_isSome_of_fuel
      ⟨embeddings, seediness, margins, fitfunc, s_threshold, p_threshold⟩
      hlen hp hker (seediness.length + 1)
      (initState ⟨embeddings, seediness, margins, fitfunc, s_threshold,
        p_threshold⟩) rfl (by simp [initState])
    obtain ⟨st, hst⟩ := Option.isSome_iff_exists.mp hrun
    dsimp only []
    rw [hst]
    simp

/-- Indicator kernel used for the C7 and C8 witnesses: scores the centroid
itself `1` and everything else `0` (so it satisfies `f c σ c = 1`). -/
def indicatorKernel : List ℚ → ℚ → List ℚ → ℚ := fun c _ x => if x = c then 1 else 0

/-- Witness for C7 on a decidable two-point input with `p_threshold = 0`. -/
theorem c7_decoder_terminates_witness :
    (([[0], [5]] : List (List ℚ)).length = ([2, 1] : List ℚ).length ∧
     (0 : ℚ) < 1 ∧ (∀ c σ, indicatorKernel c σ c = 1)) ∧
    ((∀ (k : ℕ) (st st' : DecodeState ℚ),
      iterN ⟨[[0], [5]], [2, 1], [1, 1], indicatorKernel, 0, 0⟩ k
          (initState ⟨[[0], [5]], [2, 1], [1, 1], indicatorKernel, 0, 0⟩) =
            .next st →
      decodeStep ⟨[[0], [5]], [2, 1], [1, 1], indicatorKernel, 0, 0⟩ st =
            .next st' →
      st.count < st'.count) ∧
     (fit_predict2 [[0], [5]] [(2 : ℚ), 1] [1, 1] indicatorKernel 0 0).isSome) :=
  ⟨⟨rfl, by norm_num, fun c σ => by simp [indicatorKernel]⟩,
   c7_decoder_terminates [[0], [5]] [2, 1] [1, 1] indicatorKernel 0 0 rfl
     (by norm_num) (fun c σ => by simp [indicatorKernel])⟩

/-! ## Claim C8: shape of the predicted label vector -/

/-- The C8 counterexample kernel factory (an admissible `fitfunc` input of
`fit_predict2`, which places no constraint on the kernel): depending on the
centroid it scores the three embedded points `[0]`, `[1]`, `[2]` so that the
middle sphere's probability column never wins the final argmax. -/
def c8fitfunc : List ℚ → ℚ → List ℚ → ℚ := fun c _ x =>
  if c = [0] then (if x = [0] then 20 else 8)
  else if c = [1] then (if x = [1] then 11 else 8)
  else (if x = [2] then 20 else if x = [1] then 12 else 8)

/-- **C8 counterexample.**  The claim states that for *every* input the
returned label vector is either all `-1` or a contiguous range `0..m-1` with
every value attained.  On this input (`p_threshold = 10`) the discovery loop
creates three spheres — seeded at points 0, 1 and 2 — but the final
column-argmax assigns point 0 to sphere 0 and points 1 and 2 to sphere 2:
the labels are `[0, 2, 2]`, whose value set `{0, 2}` skips `1`, so they form
no contiguous range `0..m-1` with every value attained (and are not all
`-1`). -/
theorem c8_counterexample :
    fit_predict2 [[0], [1], [2]] [(20 : ℚ), 18, 16] [1, 1, 1] c8fitfunc 0 10 =
      some ([0, 2, 2], [([0], 1), ([1], 1), ([2], 1)]) ∧
    ¬ (([0, 2, 2] : List ℤ) = List.replicate 3 (-1) ∨
       ∃ m : ℕ, ∀ v : ℤ, v ∈ ([0, 2, 2] : List ℤ) ↔ 0 ≤ v ∧ v < (m : ℤ)) := by
  refine ⟨by decide, ?_⟩
  rintro (h | ⟨m, hm⟩)
  · simp [List.replicate] at h
  · have h2 : (0 ≤ (2:ℤ) ∧ (2:ℤ) < (m:ℤ)) := (hm 2).mp (by decide)
    have h1 : (1:ℤ) ∈ ([0, 2, 2] : List ℤ) :=
      (hm 1).mpr ⟨by norm_num, by omega⟩
    simp at h1

/-- Along the discovery loop, the probability columns and the spheres are
appended in lockstep, so their counts agree in the final state. -/
theorem probsSpheres_decodeRun {α : Type} [LinearOrderedField α]
    (cfg : DecodeCfg α) :
    ∀ (fuel : ℕ) (st st' : DecodeState α),
      st.probs.length = st.spheres.length →
      decodeRun cfg fuel st = some st' →
      st'.probs.length = st'.spheres.length
  | 0, st, st', _, h => by simp [decodeRun] at h
  | fuel + 1, st, st', hps, h => by
    unfold decodeRun at h
    cases hd : decodeStep cfg st with
    | next st1 =>
      rw [hd] at h
      obtain ⟨-, -, rfl⟩ := decodeStep_next_elim cfg st st1 hd
      refine probsSpheres_decodeRun cfg fuel _ st' ?_ h
      simp [hps]
    | halted st1 =>
      rw [hd] at h
      injection h with h
      rw [← h, decodeStep_halted_elim cfg st st1 hd]
      exact hps
    | finished st1 =>
      rw [hd] at h
      injection h with h
      rw [← h, decodeStep_finished_elim cfg st st1 hd]
      exact hps

/-- **C8 amended.**  The label vector returned by `fit_predict2` is the
all-`-1` vector exactly when no sphere was discovered; otherwise every label
is a non-negative integer smaller than the number of discovered spheres.
The set of attained labels need not be a full contiguous range `0..m-1`
(see the counterexample, where a middle sphere wins no argmax). -/
theorem c8_labels_amended {α : Type} [LinearOrderedField α]
    (embeddings : List (List α)) (seediness margins : List α)
    (fitfunc : List α → α → List α → α) (s_threshold p_threshold : α)
    (labels : List ℤ) (spheres : List (List α × α))
    (hres : fit_predict2 embeddings seediness margins fitfunc s_threshold
      p_threshold = some (labels, spheres)) :
    (spheres = [] → labels = List.replicate embeddings.length (-1)) ∧
    (spheres ≠ [] → ∀ v ∈ labels, 0 ≤ v ∧ v < (spheres.length : ℤ)) := by
  unfold fit_predict2 at hres
  dsimp only [] at hres
  rw [Option.map_eq_some'] at hres
  obtain ⟨st, hrun, hg⟩ := hres
  have hps : st.probs.length = st.spheres.length := by
    refine probsSpheres_decodeRun _ _ _ st ?_ hrun
    rfl
  by_cases hempty : st.probs.isEmpty
  · rw [if_pos hempty] at hg
    injection hg with hlab hsph
    have : st.spheres = [] := by
      rw [List.isEmpty_iff] at hempty
      rw [← List.length_eq_zero, ← hps, hempty]
      rfl
    constructor
    · intro _
      exact hlab.symm
    · intro hne
      exact absurd (hsph ▸ this) hne
  · rw [if_neg hempty] at hg
    injection hg with hlab hsph
    have hpne : st.probs ≠ [] := by
      intro hcon
      rw [hcon] at hempty
      simp at hempty
    have hsphlen : spheres.length = st.probs.length := by
      rw [← hsph, ← hps]
    constructor
    · intro hsphe
      exfalso
      rw [hsphe] at hsphlen
      exact hpne (List.length_eq_zero.mp hsphlen.symm)
    · intro _ v hv
      rw [← hlab] at hv
      obtain ⟨pt, hpt, hveq⟩ := List.mem_map.mp hv
      subst hveq
      unfold labelOfPoint
      have hrowne : st.probs.map (fun col => col.getD pt 0) ≠ [] := by
        intro hcon
        exact hpne (List.map_eq_nil_iff.mp hcon)
      have hbound := argmaxFirst_lt_length _ hrowne
      rw [List.length_map] at hbound
      constructor
      · exact Int.ofNat_nonneg _
      · rw [hsphlen]
        exact_mod_cast hbound

/-- Witness for the amended C8 on a decidable one-point run that discovers
one sphere. -/
theorem c8_labels_amended_witness :
    fit_predict2 [[0]] [(1 : ℚ)] [1] indicatorKernel 0 0 =
      some ([0], [([0], 1)]) ∧
    ((([([0], 1)] : List (List ℚ × ℚ)) = [] →
        ([0] : List ℤ) = List.replicate 1 (-1)) ∧
     (([([0], 1)] : List (List ℚ × ℚ)) ≠ [] →
        ∀ v ∈ ([0] : List ℤ), 0 ≤ v ∧ v < ((1 : ℕ) : ℤ))) :=
  ⟨by decide,
   c8_labels_amended [[0]] [(1 : ℚ)] [1] indicatorKernel 0 0 [0] [([0], 1)]
     (by decide)⟩

/-! ## Claim C1: the four-point two-cluster scenario -/

/-- The C1 scenario embeddings `[[0,0],[0.1,0],[5,5],[5.1,5]]`. -/
noncomputable def c1emb : List (List ℝ) := [[0, 0], [1/10, 0], [5, 5], [51/10, 5]]

/-- The C1 scenario decoder input: seediness `[1,0.9,1,0.9]`, margins all
`0.5`, Gaussian kernel, `s_threshold = 0`, `p_threshold = 0.5`. -/
noncomputable def c1cfg : DecodeCfg ℝ :=
  ⟨c1emb, [1, 9/10, 1, 9/10], [1/2, 1/2, 1/2, 1/2], gaussian_kernel, 0, 1/2⟩

/-- Probability column of the first discovered sphere (seed index 2,
centroid `[5,5]`, `σ = 1/2`). -/
noncomputable def c1col1 : List ℝ :=
  [Real.exp (-100), Real.exp (-(4901/50)), 1, Real.exp (-(1/50))]

/-- Probability column of the second discovered sphere (seed index 0,
centroid `[0,0]`, `σ = 1/2`). -/
noncomputable def c1col2 : List ℝ :=
  [1, Real.exp (-(1/50)), Real.exp (-100), Real.exp (-(5101/50))]

theorem exp_lt_half {x : ℝ} (hx : x ≤ -1) : Real.exp x < 1/2 := by
  have h1 : Real.exp x ≤ Real.exp (-1) := Real.exp_le_exp.mpr hx
  have h2 : (2:ℝ) < Real.exp 1 := lt_trans (by norm_num) Real.exp_one_gt_d9
  have h3 : Real.exp (-1) < 1/2 := by
    rw [Real.exp_neg]
    calc (Real.exp 1)⁻¹ < 2⁻¹ := by
          apply inv_strictAnti₀ (by norm_num) h2
      _ = 1/2 := by norm_num
  linarith

theorem half_lt_exp_small : (1/2 : ℝ) < Real.exp (-(1/50)) := by
  have := Real.add_one_le_exp (-(1/50) : ℝ)
  linarith

/-- First loop iteration: the argmax of the copy is index 2 (numpy's stable
argsort breaks the seediness tie `1 = 1` toward the later index), the sphere
`([5,5], 1/2)` is created, points 2 and 3 are claimed. -/
theorem c1_step1 : decodeStep c1cfg (initState c1cfg) =
    .next ⟨[1, 9/10, 0, 0], [c1col1], [([5, 5], 1/2)], 2⟩ := by
  have hm : argmaxLast ([1, 9/10, 1, 9/10] : List ℝ) = 2 := by
    norm_num [argmaxLast]
  have h1 : ¬ ((1/2:ℝ) < Real.exp (-100)) :=
    not_lt.mpr (le_of_lt (exp_lt_half (by norm_num)))
  have h2 : ¬ ((1/2:ℝ) < Real.exp (-(4901/50))) :=
    not_lt.mpr (le_of_lt (exp_lt_half (by norm_num)))
  have h3 : ((1/2:ℝ) < Real.exp (-(1/50))) := half_lt_exp_small
  unfold decodeStep initState c1cfg
  dsimp only []
  norm_num [hm, zeroAbove, countAbove, c1col1, c1emb, h1, h2, h3,
    gaussian_kernel, sqDist, Real.exp_zero]

/-- Second loop iteration: seed index 0, sphere `([0,0], 1/2)`, points 0 and
1 are claimed, raising the count to 4. -/
theorem c1_step2 : decodeStep c1cfg
      ⟨[1, 9/10, 0, 0], [c1col1], [([5, 5], 1/2)], 2⟩ =
    .next ⟨[0, 0, 0, 0], [c1col1, c1col2],
      [([5, 5], 1/2), ([0, 0], 1/2)], 4⟩ := by
  have hm : argmaxLast ([1, 9/10, 0, 0] : List ℝ) = 0 := by
    norm_num [argmaxLast]
  have h1 : ¬ ((1/2:ℝ) < Real.exp (-100)) :=
    not_lt.mpr (le_of_lt (exp_lt_half (by norm_num)))
  have h2 : ¬ ((1/2:ℝ) < Real.exp (-(5101/50))) :=
    not_lt.mpr (le_of_lt (exp_lt_half (by norm_num)))
  have h3 : ((1/2:ℝ) < Real.exp (-(1/50))) := half_lt_exp_small
  unfold decodeStep c1cfg
  dsimp only []
  norm_num [hm, zeroAbove, countAbove, c1col1, c1col2, c1emb, h1, h2, h3,
    gaussian_kernel, sqDist, Real.exp_zero]

/-- Third pass: the count 4 equals the number of points, so the loop exits. -/
theorem c1_step3 : decodeStep c1cfg
      ⟨[0, 0, 0, 0], [c1col1, c1col2], [([5, 5], 1/2), ([0, 0], 1/2)], 4⟩ =
    .finished ⟨[0, 0, 0, 0], [c1col1, c1col2],
      [([5, 5], 1/2), ([0, 0], 1/2)], 4⟩ := by
  unfold decodeStep c1cfg
  norm_num

theorem decodeRun_succ {α : Type} [LinearOrderedField α] (cfg : DecodeCfg α)
    (fuel : ℕ) (st : DecodeState α) :
    decodeRun cfg (fuel + 1) st =
      match decodeStep cfg st with
      | .next st' => decodeRun cfg fuel st'
      | .halted st' => some st'
      | .finished st' => some st' := rfl

theorem c1_run : decodeRun c1cfg 5 (initState c1cfg) =
    some ⟨[0, 0, 0, 0], [c1col1, c1col2],
      [([5, 5], 1/2), ([0, 0], 1/2)], 4⟩ := by
  have h5 : decodeRun c1cfg 5 (initState c1cfg) =
      decodeRun c1cfg 4 ⟨[1, 9/10, 0, 0], [c1col1], [([5, 5], 1/2)], 2⟩ := by
    show decodeRun c1cfg (4 + 1) (initState c1cfg) = _
    rw [decodeRun_succ, c1_step1]
  have h4 : decodeRun c1cfg 4 ⟨[1, 9/10, 0, 0], [c1col1], [([5, 5], 1/2)], 2⟩ =
      decodeRun c1cfg 3
        ⟨[0, 0, 0, 0], [c1col1, c1col2], [([5, 5], 1/2), ([0, 0], 1/2)], 4⟩ := by
    show decodeRun c1cfg (3 + 1) _ = _
    rw [decodeRun_succ, c1_step2]
  have h3 : decodeRun c1cfg 3
      ⟨[0, 0, 0, 0], [c1col1, c1col2], [([5, 5], 1/2), ([0, 0], 1/2)], 4⟩ =
      some ⟨[0, 0, 0, 0], [c1col1, c1col2],
        [([5, 5], 1/2), ([0, 0], 1/2)], 4⟩ := by
    show decodeRun c1cfg (2 + 1) _ = _
    rw [decodeRun_succ, c1_step3]
  rw [h5, h4, h3]

/-- **C1.** On embeddings `[[0,0],[0.1,0],[5,5],[5.1,5]]` with seediness
`[1, 0.9, 1, 0.9]`, margins all `0.5`, `s_threshold = 0`, `p_threshold =
0.5` and the symmetric Gaussian kernel, `fit_predict2` returns exactly the
label vector `[1, 1, 0, 0]` — two distinct labels, partitioning the points
into `{0, 1}` (label 1) and `{2, 3}` (label 0) — and a sphere list with
exactly the two entries `([5,5], 0.5)` and `([0,0], 0.5)`. -/
theorem c1_fit_predict2_scenario :
    fit_predict2 [[0, 0], [1/10, 0], [5, 5], [51/10, 5]]
        ([1, 9/10, 1, 9/10] : List ℝ) [1/2, 1/2, 1/2, 1/2]
        gaussian_kernel 0 (1/2) =
      some ([1, 1, 0, 0], [([5, 5], 1/2), ([0, 0], 1/2)]) ∧
    (([1, 1, 0, 0] : List ℤ).dedup = [1, 0]) := by
  constructor
  · unfold fit_predict2
    dsimp only []
    rw [show (⟨[[0, 0], [1/10, 0], [5, 5], [51/10, 5]], [1, 9/10, 1, 9/10],
        [1/2, 1/2, 1/2, 1/2], gaussian_kernel, 0, 1/2⟩ : DecodeCfg ℝ) = c1cfg
        from rfl]
    rw [show ([1, 9/10, 1, 9/10] : List ℝ).length + 1 = 5 from rfl]
    rw [c1_run]
    have f1 : Real.exp (-100:ℝ) < 1 := Real.exp_lt_one_iff.mpr (by norm_num)
    have f2 : Real.exp (-(4901/50):ℝ) < Real.exp (-(1/50)) :=
      Real.exp_lt_exp.mpr (by norm_num)
    have f3 : ¬ ((1:ℝ) < Real.exp (-100)) := not_lt.mpr (le_of_lt f1)
    have f4 : ¬ (Real.exp (-(1/50):ℝ) < Real.exp (-(5101/50))) :=
      not_lt.mpr (le_of_lt (Real.exp_lt_exp.mpr (by norm_num)))
    norm_num [labelOfPoint, argmaxFirst, c1col1, c1col2,
      show (List.range 4) = [0, 1, 2, 3] from rfl, f1, f2, f3, f4]
    intro h
    exact absurd h (by simp)
  · decide
